import Mathlib

/-!
Verification of the AT-ADS transparency scanner against its specification.

The development shallowly embeds the pure computational core of the
JavaScript sources:

* domain normalization from the Apps Script `getDomains` (part_000);
* the ad-count regex extraction, format detection, supplementary-detail
  merging and the Hebrew-to-English substitution table from the scraper
  (part_001, `scrapeAdTransparency` / `translateToEnglish`);
* the batch scheduler (`runScheduledScan`, `startAutoRun`, `stopAutoRun`)
  from the Express server (part_001).

Strings are modelled as `List Char` internally; browser/network effects are
abstracted by passing the per-domain scrape outcome and the sink response
as function parameters.  Time-dependent fields (`scanDate`, timestamps) and
the Drive screenshot upload are abstracted as noted at their definitions.
-/

/-! ## Character helpers -/

/-- ASCII whitespace recognised by the JS `\s` class and `String.trim`
(the additional Unicode space code points do not occur in the inputs the
claims are about). -/
def isJsSpace (c : Char) : Bool :=
  c = ' ' || c = '\t' || c = '\n' || c = '\r' || c = '\x0b' || c = '\x0c'

/-- ASCII decimal digit, the JS `\d` class. -/
def isDigitCh (c : Char) : Bool :=
  '0' ≤ c && c ≤ '9'

/-- Trim leading and trailing whitespace, as JS `String.prototype.trim`. -/
def trimChars (s : List Char) : List Char :=
  ((s.dropWhile isJsSpace).reverse.dropWhile isJsSpace).reverse

/-- Leftmost-occurrence substring test, as JS `String.prototype.includes`. -/
def containsSeq (k : List Char) : List Char → Bool
  | [] => k.isEmpty
  | c :: s2 => k.isPrefixOf (c :: s2) || containsSeq k s2

/-! ## Domain normalization (part_000, `getDomains`)

The Apps Script cleans each configured domain with
`trim`, `replace(/^https?:\/\//, '')`, `replace(/^www\./, '')`,
`replace(/\/+$/, '')`, in that order.  Each `replace` rewrites the first
(anchored) match only, which for these anchored patterns strips one prefix
layer respectively the whole trailing run of slashes. -/

/-- Models `replace(/^https?:\/\//, '')`: the greedy `s?` tries `https://` first. -/
def stripScheme (s : List Char) : List Char :=
  if ("https://".toList).isPrefixOf s then s.drop 8
  else if ("http://".toList).isPrefixOf s then s.drop 7
  else s

/-- Models `replace(/^www\./, '')`. -/
def stripWww (s : List Char) : List Char :=
  if ("www.".toList).isPrefixOf s then s.drop 4 else s

/-- Models `replace(/\/+$/, '')`: removes the maximal trailing run of slashes. -/
def stripTrailingSlashes (s : List Char) : List Char :=
  (s.reverse.dropWhile (fun c => c = '/')).reverse

/-- The whole normalization chain of `getDomains`. -/
def normalizeDomain (s : String) : String :=
  String.mk (stripTrailingSlashes (stripWww (stripScheme (trimChars s.toList))))

theorem normalizeDomain_example : normalizeDomain "https://www.Example.com/" = "Example.com" := by
  decide

/-- Claim C6 counterexample: the code never lowercases, so the normalized
form of `https://www.Example.com/` is `Example.com`, not `example.com`. -/
theorem normalizeDomain_not_lowercased :
    normalizeDomain "https://www.Example.com/" ≠ "example.com" := by
  decide

/-- Claim C6 (amended): normalization maps `https://www.Example.com/` to
`Example.com`, preserving the letter case of the input. -/
theorem normalizeDomain_example_amended :
    normalizeDomain "https://www.Example.com/" = "Example.com" ∧
      normalizeDomain "https://www.Example.com/" ≠ "example.com" := by
  constructor
  · decide
  · decide

/-- Claim C5 counterexample: normalization strips only one `www.` layer per
pass, so it is not idempotent on `www.www.example.com`. -/
theorem normalizeDomain_not_idempotent :
    normalizeDomain (normalizeDomain "www.www.example.com") ≠
      normalizeDomain "www.www.example.com" := by
  decide

/-- Claim C5 (amended): normalization is idempotent on exactly those inputs
whose normalized form cannot be stripped further — no surrounding
whitespace, no remaining scheme prefix, no remaining `www.` prefix and no
trailing slash.  (One stripping pass can expose another strippable layer,
as `www.www.example.com` shows.) -/
theorem normalizeDomain_idempotent_amended (x : String)
    (h1 : trimChars (normalizeDomain x).toList = (normalizeDomain x).toList)
    (h2 : stripScheme (normalizeDomain x).toList = (normalizeDomain x).toList)
    (h3 : stripWww (normalizeDomain x).toList = (normalizeDomain x).toList)
    (h4 : stripTrailingSlashes (normalizeDomain x).toList = (normalizeDomain x).toList) :
    normalizeDomain (normalizeDomain x) = normalizeDomain x := by
  have hdef : normalizeDomain (normalizeDomain x) =
      String.mk (stripTrailingSlashes (stripWww (stripScheme
        (trimChars (normalizeDomain x).toList)))) := rfl
  rw [hdef, h1, h2, h3, h4]
  rfl

/-- Witness for the amended claim C5 at the concrete input
`https://www.foo.com/`, whose normalized form `foo.com` satisfies all four
fully-stripped conditions. -/
theorem normalizeDomain_idempotent_amended_witness :
    trimChars (normalizeDomain "https://www.foo.com/").toList =
        (normalizeDomain "https://www.foo.com/").toList ∧
      normalizeDomain (normalizeDomain "https://www.foo.com/") =
        normalizeDomain "https://www.foo.com/" :=
  ⟨by decide, normalizeDomain_idempotent_amended "https://www.foo.com/"
    (by decide) (by decide) (by decide) (by decide)⟩

/-! ## Batch partitioning (part_001, `runScheduledScan`)

The scheduled scan computes `totalBatches = Math.ceil(N / batchSize)` and,
for batch index `i`, processes
`domains.slice(i * batchSize, Math.min((i + 1) * batchSize, N))`. -/

/-- Computes `Math.ceil(n / b)` on naturals (the JS float division is exact for the
integer list lengths in range). -/
def ceilDiv (n b : Nat) : Nat := (n + b - 1) / b

/-- The batches of one scheduled run: `slice(start, end)` is
`(drop start).take batchSize` once `end` is clipped to the list length. -/
def scheduleBatches (domains : List String) (batchSize : Nat) : List (List String) :=
  (List.range (ceilDiv domains.length batchSize)).map
    (fun i => (domains.drop (i * batchSize)).take batchSize)

lemma ceilDiv_of_zero (b : Nat) (hb : 1 ≤ b) : ceilDiv 0 b = 0 := by
  have h : 0 + b - 1 < b := by omega
  simpa [ceilDiv] using Nat.div_eq_of_lt h

lemma ceilDiv_peel (n b : Nat) (hb : 1 ≤ b) (hn : 1 ≤ n) :
    ceilDiv n b = ceilDiv (n - b) b + 1 := by
  unfold ceilDiv
  rcases le_or_lt b n with h | h
  · have h1 : n + b - 1 = (n - b + b - 1) + b := by omega
    rw [h1, Nat.add_div_right _ (by omega)]
  · have h1 : n - b = 0 := by omega
    have h2 : n + b - 1 = (n - 1) + b := by omega
    rw [h1, h2, Nat.add_div_right _ (by omega), Nat.div_eq_of_lt (by omega),
      Nat.div_eq_of_lt (by omega)]

lemma scheduleBatches_nil (b : Nat) (hb : 1 ≤ b) : scheduleBatches [] b = [] := by
  simp [scheduleBatches, ceilDiv_of_zero b hb]

lemma scheduleBatches_cons (d : List String) (b : Nat) (hb : 1 ≤ b) (hd : d ≠ []) :
    scheduleBatches d b = d.take b :: scheduleBatches (d.drop b) b := by
  have hn : 1 ≤ d.length := List.length_pos.mpr hd
  unfold scheduleBatches
  rw [List.length_drop, ceilDiv_peel d.length b hb hn, List.range_succ_eq_map,
    List.map_cons, List.map_map]
  have h0 : (d.drop (0 * b)).take b = d.take b := by simp
  rw [h0]
  congr 1
  refine List.map_congr_left fun i _ => ?_
  show (d.drop (Nat.succ i * b)).take b = ((d.drop b).drop (i * b)).take b
  rw [List.drop_drop]
  have hmul : Nat.succ i * b = b + i * b := by rw [Nat.succ_mul, Nat.add_comm]
  rw [hmul]

lemma flatten_scheduleBatches (b : Nat) (hb : 1 ≤ b) :
    ∀ d : List String, (scheduleBatches d b).flatten = d := by
  have H : ∀ n, ∀ d : List String, d.length ≤ n → (scheduleBatches d b).flatten = d := by
    intro n
    induction n with
    | zero =>
      intro d hd
      have h0 : d = [] := List.length_eq_zero.mp (Nat.le_zero.mp hd)
      subst h0
      rw [scheduleBatches_nil b hb]
      rfl
    | succ n ih =>
      intro d hd
      rcases eq_or_ne d [] with h | h
      · subst h
        rw [scheduleBatches_nil b hb]
        rfl
      · rw [scheduleBatches_cons d b hb h, List.flatten_cons, ih (d.drop b) ?_]
        · exact List.take_append_drop b d
        · rw [List.length_drop]
          have : 1 ≤ d.length := List.length_pos.mpr h
          omega
  exact fun d => H d.length d le_rfl

/-- Claim C2: for a domain list of length `N ≥ 1` and batch size `B ≥ 1`,
the scheduled run forms `ceil(N/B)` contiguous batches whose concatenation
is the original list — every domain is scanned exactly once, in order. -/
theorem scheduledScan_batches_partition (domains : List String) (batchSize : Nat)
    (hN : 1 ≤ domains.length) (hB : 1 ≤ batchSize) :
    (scheduleBatches domains batchSize).length = ceilDiv domains.length batchSize ∧
      (scheduleBatches domains batchSize).flatten = domains := by
  refine ⟨?_, flatten_scheduleBatches batchSize hB domains⟩
  unfold scheduleBatches
  rw [List.length_map, List.length_range]

/-- Witness for claim C2 at `N = 7`, `B = 5`: two batches of sizes
`[5, 2]`, covering the seven domains in order. -/
theorem scheduledScan_batches_partition_witness :
    (scheduleBatches ["d1", "d2", "d3", "d4", "d5", "d6", "d7"] 5).map List.length = [5, 2] ∧
      ((scheduleBatches ["d1", "d2", "d3", "d4", "d5", "d6", "d7"] 5).length =
          ceilDiv (["d1", "d2", "d3", "d4", "d5", "d6", "d7"] : List String).length 5 ∧
        (scheduleBatches ["d1", "d2", "d3", "d4", "d5", "d6", "d7"] 5).flatten =
          ["d1", "d2", "d3", "d4", "d5", "d6", "d7"]) :=
  ⟨by decide, scheduledScan_batches_partition _ 5 (by decide) (by decide)⟩

/-! ## Ad-count extraction (part_001, `scrapeAdTransparency`, page evaluate)

The page text is first checked for the three no-results markers; otherwise
the RTL/LTR marks are stripped and the three case-insensitive regexes

1. `(\d+(?:\.\d+)?)\s*K\s*(?:ads?|מודעות)`
2. `(?:about|בערך|approximately)\s*(\d+(?:\.\d+)?)\s*K`
3. `(\d+(?:,\d+)?)\s*(?:ads?|מודעות)`

are tried in order against the cleaned text; the first one with a match
wins.  Each regex is embedded as a leftmost-match scanner with the exact
backtracking behaviour these patterns can exhibit: the quantified classes
`\d+`/`\s*` are maximal-munch here (no following atom can consume a digit
or a space), the optional groups `(?:\.\d+)?` / `(?:,\d+)?` fall back to
the empty match when the tail fails, and the alternations are tried left
to right. -/

/-- For patterns whose source contains `K`, the JS code computes
`Math.round(parseFloat(count) * 1000)`; otherwise `Math.round(parseFloat(count))`
on the comma-stripped digits. -/
structure AdCountMatch where
  /-- Field `match[0]`, the full matched excerpt. -/
  whole : List Char
  /-- Integer digits of `match[1]` (commas already stripped for regex 3). -/
  intPart : List Char
  /-- Fraction digits of `match[1]` (empty when there is no `.` part). -/
  fracPart : List Char
  /-- Whether `pattern.source.includes('K')` holds for the pattern. -/
  isK : Bool
  deriving DecidableEq

/-- Case-insensitive literal match at the current position (the regexes use
the `i` flag; `Char.toLower` lowers exactly the ASCII range, like the flag). -/
def ciPrefixOf : List Char → List Char → Bool
  | [], _ => true
  | _ :: _, [] => false
  | p :: ps, c :: cs => (p.toLower = c.toLower) && ciPrefixOf ps cs

/-- Consume a literal word case-insensitively, returning it and the rest. -/
def litAt (w : List Char) (s : List Char) : Option (List Char × List Char) :=
  if ciPrefixOf w s then some (s.take w.length, s.drop w.length) else none

/-- Group `(?:ads?|מודעות)`: alternatives tried left to right, `s?` greedy. -/
def matchAdsUnit (s : List Char) : Option (List Char × List Char) :=
  litAt "ads".toList s <|> litAt "ad".toList s <|> litAt "מודעות".toList s

/-- Group `(?:about|בערך|approximately)`, alternatives left to right. -/
def matchAboutWord (s : List Char) : Option (List Char × List Char) :=
  litAt "about".toList s <|> litAt "בערך".toList s <|> litAt "approximately".toList s

/-- Tail `\s*K\s*(?:ads?|מודעות)` of regex 1. -/
def p1TailK (s : List Char) : Option (List Char × List Char) :=
  let w1 := s.takeWhile isJsSpace
  match s.dropWhile isJsSpace with
  | [] => none
  | c :: r2 =>
    if c.toLower = 'k' then
      let w2 := r2.takeWhile isJsSpace
      match matchAdsUnit (r2.dropWhile isJsSpace) with
      | some (u, rest) => some (w1 ++ c :: (w2 ++ u), rest)
      | none => none
    else none

/-- Regex 1, `(\d+(?:\.\d+)?)\s*K\s*(?:ads?|מודעות)`, anchored at the
current position. -/
def p1At (s : List Char) : Option AdCountMatch :=
  let ds := s.takeWhile isDigitCh
  let r1 := s.dropWhile isDigitCh
  if ds.isEmpty then none
  else
    let noFrac : Option AdCountMatch :=
      match p1TailK r1 with
      | some (t, _) => some ⟨ds ++ t, ds, [], true⟩
      | none => none
    match r1 with
    | '.' :: r2 =>
      let fs := r2.takeWhile isDigitCh
      let r3 := r2.dropWhile isDigitCh
      if fs.isEmpty then noFrac
      else
        match p1TailK r3 with
        | some (t, _) => some ⟨ds ++ '.' :: (fs ++ t), ds, fs, true⟩
        | none => noFrac
    | _ => noFrac

/-- Tail `\s*K` of regex 2 (end of the pattern). -/
def p2TailK (s : List Char) : Option (List Char × List Char) :=
  let w1 := s.takeWhile isJsSpace
  match s.dropWhile isJsSpace with
  | c :: r2 => if c.toLower = 'k' then some (w1 ++ [c], r2) else none
  | [] => none

/-- Regex 2, `(?:about|בערך|approximately)\s*(\d+(?:\.\d+)?)\s*K`, anchored
at the current position. -/
def p2At (s : List Char) : Option AdCountMatch :=
  match matchAboutWord s with
  | none => none
  | some (a, r0) =>
    let w1 := r0.takeWhile isJsSpace
    let r1 := r0.dropWhile isJsSpace
    let ds := r1.takeWhile isDigitCh
    let r2 := r1.dropWhile isDigitCh
    if ds.isEmpty then none
    else
      let noFrac : Option AdCountMatch :=
        match p2TailK r2 with
        | some (t, _) => some ⟨a ++ w1 ++ ds ++ t, ds, [], true⟩
        | none => none
      match r2 with
      | '.' :: r3 =>
        let fs := r3.takeWhile isDigitCh
        let r4 := r3.dropWhile isDigitCh
        if fs.isEmpty then noFrac
        else
          match p2TailK r4 with
          | some (t, _) => some ⟨a ++ w1 ++ ds ++ '.' :: (fs ++ t), ds, fs, true⟩
          | none => noFrac
      | _ => noFrac

/-- Tail `\s*(?:ads?|מודעות)` of regex 3. -/
def p3Tail (s : List Char) : Option (List Char × List Char) :=
  let w1 := s.takeWhile isJsSpace
  match matchAdsUnit (s.dropWhile isJsSpace) with
  | some (u, rest) => some (w1 ++ u, rest)
  | none => none

/-- Regex 3, `(\d+(?:,\d+)?)\s*(?:ads?|מודעות)`, anchored at the current
position; `intPart` already has the comma stripped, as
`match[1].replace(/,/g, '')` does. -/
def p3At (s : List Char) : Option AdCountMatch :=
  let ds := s.takeWhile isDigitCh
  let r1 := s.dropWhile isDigitCh
  if ds.isEmpty then none
  else
    let noComma : Option AdCountMatch :=
      match p3Tail r1 with
      | some (t, _) => some ⟨ds ++ t, ds, [], false⟩
      | none => none
    match r1 with
    | ',' :: r2 =>
      let fs := r2.takeWhile isDigitCh
      let r3 := r2.dropWhile isDigitCh
      if fs.isEmpty then noComma
      else
        match p3Tail r3 with
        | some (t, _) => some ⟨ds ++ ',' :: (fs ++ t), ds ++ fs, [], false⟩
        | none => noComma
    | _ => noComma

/-- Leftmost match: `String.prototype.match` without `g` returns the match
at the smallest starting index. -/
def scanFirst (m : List Char → Option AdCountMatch) : List Char → Option AdCountMatch
  | [] => m []
  | c :: cs =>
    match m (c :: cs) with
    | some r => some r
    | none => scanFirst m cs

/-- Digits to a natural number. -/
def natOfDigits (ds : List Char) : Nat :=
  ds.foldl (fun n c => n * 10 + (c.toNat - '0'.toNat)) 0

/-- Computes `Math.round(parseFloat(int.frac) * 1000)` exactly: the first
three fraction digits are the sub-thousand part and the fourth digit
decides the half-up rounding.  (JS computes this in binary floating point;
the values reached by the claims are exactly representable.) -/
def roundKilo (intPart fracPart : List Char) : Nat :=
  natOfDigits intPart * 1000 + natOfDigits ((fracPart ++ ['0', '0', '0']).take 3) +
    (match fracPart.drop 3 with
     | c :: _ => if '5' ≤ c then 1 else 0
     | [] => 0)

/-- The `totalAds` value of a match, using the pattern's `K` flag. -/
def countOf (m : AdCountMatch) : Nat :=
  if m.isK then roundKilo m.intPart m.fracPart else natOfDigits m.intPart

/-- The cleaned text: `rawText.replace(/[\u200F\u200E]/g, '')` (the regex class holds U+200F and U+200E), stripping
the RTL and LTR marks. -/
def cleanedText (rawText : String) : List Char :=
  rawText.toList.filter (fun c => !(c = '\u200F' || c = '\u200E'))

/-- Ad-count extraction from the page text: the no-results early return,
then the ordered pattern list with first match winning.  Returns
`(totalAds, totalAdsText)`. -/
def extractAdCount (rawText : String) : Nat × String :=
  let raw := rawText.toList
  if containsSeq "No ads match".toList raw || containsSeq "No results".toList raw ||
      containsSeq "אין מודעות".toList raw then
    (0, "")
  else
    match scanFirst p1At (cleanedText rawText) with
    | some m => (countOf m, String.mk (trimChars m.whole))
    | none =>
      match scanFirst p2At (cleanedText rawText) with
      | some m => (countOf m, String.mk (trimChars m.whole))
      | none =>
        match scanFirst p3At (cleanedText rawText) with
        | some m => (countOf m, String.mk (trimChars m.whole))
        | none => (0, "")

/-- Claim C3 counterexample: the page text `12K ads` contains the substring
`2K ads`, yet extraction returns 12000, because the leftmost match of
regex 1 is `12K ads` itself — so "a text containing `2K ads` yields count
2000" fails. -/
theorem extractAdCount_contains_counterexample :
    containsSeq "2K ads".toList "12K ads".toList = true ∧
      (extractAdCount "12K ads").fst = 12000 ∧ (extractAdCount "12K ads").fst ≠ 2000 := by
  refine ⟨by decide, by decide, by decide⟩

/-- Claim C3 (amended): the ordered pattern list with first match winning
gives count 2000 for the page text `2K ads` itself and 2500 for the page
text `2,500 ads` itself (a larger text surrounding these phrases can make
an earlier/longer match win), and any text in which no pattern matches the
cleaned text yields count 0. -/
theorem extractAdCount_amended :
    extractAdCount "2K ads" = (2000, "2K ads") ∧
      extractAdCount "2,500 ads" = (2500, "2,500 ads") ∧
      ∀ rawText : String,
        scanFirst p1At (cleanedText rawText) = none →
        scanFirst p2At (cleanedText rawText) = none →
        scanFirst p3At (cleanedText rawText) = none →
        (extractAdCount rawText).fst = 0 := by
  refine ⟨by decide, by decide, fun rawText h1 h2 h3 => ?_⟩
  unfold extractAdCount
  simp [h1, h2, h3]

/-- Witness for the amended claim C3 at the concrete no-match input
`hello`. -/
theorem extractAdCount_amended_witness :
    scanFirst p1At (cleanedText "hello") = none ∧
      scanFirst p2At (cleanedText "hello") = none ∧
      scanFirst p3At (cleanedText "hello") = none ∧
      (extractAdCount "hello").fst = 0 :=
  ⟨by decide, by decide, by decide,
    extractAdCount_amended.2.2 "hello" (by decide) (by decide) (by decide)⟩

/-- Claim C4 counterexample: for the page text `About 2K ads` (which
contains the phrase `About 2K ads`), the recorded excerpt is `2K ads`,
not `About 2K ads`: regex 1 is tried before the about-pattern and already
matches the `2K ads` part. -/
theorem extractAdCount_about_excerpt_counterexample :
    containsSeq "About 2K ads".toList "About 2K ads".toList = true ∧
      (extractAdCount "About 2K ads").snd ≠ "About 2K ads" := by
  refine ⟨by decide, by decide⟩

/-- Claim C4 (amended): for the page text `About 2K ads`, extraction
returns count 2000 and records `2K ads` — the match of the first pattern —
as the `totalAdsText` excerpt. -/
theorem extractAdCount_about_amended :
    extractAdCount "About 2K ads" = (2000, "2K ads") := by
  decide

/-! ## Hebrew-to-English substitution (part_001, `translateToEnglish`)

`translateToEnglish` iterates over `Object.entries(hebrewToEnglish)` in
insertion order and performs `result = result.replace(new RegExp(hebrew, 'g'),
english)` for each pair.  The keys contain no regex metacharacters, so each
step is a leftmost, non-overlapping global literal replacement that never
rescans the inserted replacement text. -/

/-- ASCII letter: the only letters occurring in the replacement values. -/
def isEngLetter (c : Char) : Bool :=
  ('A' ≤ c && c ≤ 'Z') || ('a' ≤ c && c ≤ 'z')

/-- Characters occurring in replacement values: ASCII letters and space. -/
def engChar (c : Char) : Bool :=
  isEngLetter c || c = ' '

/-- Models `String.prototype.replace` with a global literal pattern `kh :: kt`
(nonempty) and replacement `e`: scan left to right, replace each
occurrence, resume after the replaced occurrence. -/
def replaceAll (kh : Char) (kt e : List Char) (s : List Char) : List Char :=
  match s with
  | [] => []
  | c :: s2 =>
    if (kh :: kt).isPrefixOf (c :: s2) then e ++ replaceAll kh kt e (s2.drop kt.length)
    else c :: replaceAll kh kt e s2
termination_by s.length
decreasing_by
  all_goals simp [List.length_drop]
  all_goals omega

lemma replaceAll_nil (kh : Char) (kt e : List Char) : replaceAll kh kt e [] = [] := by
  rw [replaceAll]

lemma replaceAll_cons (kh : Char) (kt e : List Char) (c : Char) (s2 : List Char) :
    replaceAll kh kt e (c :: s2) =
      if (kh :: kt).isPrefixOf (c :: s2) then e ++ replaceAll kh kt e (s2.drop kt.length)
      else c :: replaceAll kh kt e s2 := by
  rw [replaceAll]

lemma containsSeq_tail {k : List Char} {c : Char} {s : List Char}
    (h : containsSeq k (c :: s) = false) : containsSeq k s = false := by
  have h2 : (k.isPrefixOf (c :: s) || containsSeq k s) = false := h
  exact (Bool.or_eq_false_iff.mp h2).2

lemma containsSeq_drop {k : List Char} (n : Nat) :
    ∀ s, containsSeq k s = false → containsSeq k (s.drop n) = false := by
  induction n with
  | zero => intro s h; simpa using h
  | succ n ih =>
    intro s h
    cases s with
    | nil => simpa using h
    | cons c s2 => exact ih s2 (containsSeq_tail h)

lemma bandElim {a b : Bool} (h : (a && b) = true) : a = true ∧ b = true := by
  simp at h
  exact h

lemma bandIntro {a b : Bool} (h1 : a = true) (h2 : b = true) : (a && b) = true := by
  rw [h1, h2]
  rfl

/-- A prefix of `replaceAll` output that contains no ASCII letters comes
entirely from untouched input: the replacement blocks start with a letter. -/
lemma prefix_thru_replaceAll (kh : Char) (kt : List Char) (eh : Char) (et : List Char)
    (heh : isEngLetter eh = true) (s : List Char) :
    ∀ k2 : List Char, (∀ c ∈ k2, isEngLetter c = false) →
      k2.isPrefixOf (replaceAll kh kt (eh :: et) s) = true → k2.isPrefixOf s = true := by
  induction s using replaceAll.induct kh kt (eh :: et) with
  | case1 =>
    intro k2 _ h
    rwa [replaceAll_nil] at h
  | case2 c s2 hp ih =>
    intro k2 hne h
    rw [replaceAll_cons, if_pos hp] at h
    cases k2 with
    | nil => rfl
    | cons a k2t =>
      exfalso
      have h2 : ((a == eh) && k2t.isPrefixOf (et ++ replaceAll kh kt (eh :: et)
          (s2.drop kt.length))) = true := h
      have ha : a = eh := eq_of_beq (bandElim h2).1
      have hlet := hne a (List.mem_cons_self a k2t)
      rw [ha, heh] at hlet
      exact Bool.noConfusion hlet
  | case3 c s2 hp ih =>
    intro k2 hne h
    rw [replaceAll_cons, if_neg hp] at h
    cases k2 with
    | nil => rfl
    | cons a k2t =>
      have h2 : ((a == c) && k2t.isPrefixOf (replaceAll kh kt (eh :: et) s2)) = true := h
      have hpre := ih k2t (fun d hd => hne d (List.mem_cons_of_mem a hd)) (bandElim h2).2
      show ((a == c) && k2t.isPrefixOf s2) = true
      exact bandIntro (bandElim h2).1 hpre

/-- No occurrence of a key whose head is neither a letter nor a space can
start inside a replacement block. -/
lemma containsSeq_elim_engBlock (x : Char) (xs : List Char) (hx : engChar x = false) :
    ∀ (e R : List Char), (∀ c ∈ e, engChar c = true) →
      containsSeq (x :: xs) (e ++ R) = true → containsSeq (x :: xs) R = true := by
  intro e
  induction e with
  | nil =>
    intro R _ h
    simpa using h
  | cons c e2 ih =>
    intro R hall h
    have h2 : ((x :: xs).isPrefixOf (c :: (e2 ++ R)) || containsSeq (x :: xs) (e2 ++ R)) =
        true := h
    rcases Bool.or_eq_true_iff.mp h2 with hpre | hrest
    · exfalso
      have h3 : ((x == c) && xs.isPrefixOf (e2 ++ R)) = true := hpre
      have hxc : x = c := eq_of_beq (bandElim h3).1
      have := hall c (List.mem_cons_self c e2)
      rw [← hxc, hx] at this
      cases this
    · exact ih R (fun d hd => hall d (List.mem_cons_of_mem c hd)) hrest

/-- Self-clearing: after replacing key `x :: xs` by an English block, the
output contains no occurrence of `x :: xs` at all. -/
lemma containsSeq_replaceAll_self (x : Char) (xs : List Char) (eh : Char) (et : List Char)
    (hx : engChar x = false) (hxs : ∀ c ∈ x :: xs, isEngLetter c = false)
    (heh : isEngLetter eh = true) (hall : ∀ c ∈ eh :: et, engChar c = true)
    (s : List Char) :
    containsSeq (x :: xs) (replaceAll x xs (eh :: et) s) = false := by
  induction s using replaceAll.induct x xs (eh :: et) with
  | case1 =>
    rw [replaceAll_nil]
    rfl
  | case2 c s2 hp ih =>
    rw [replaceAll_cons, if_pos hp]
    cases hval : containsSeq (x :: xs) ((eh :: et) ++
        replaceAll x xs (eh :: et) (s2.drop xs.length)) with
    | false => rfl
    | true =>
      exfalso
      have := containsSeq_elim_engBlock x xs hx (eh :: et) _ hall hval
      rw [ih] at this
      cases this
  | case3 c s2 hp ih =>
    rw [replaceAll_cons, if_neg hp]
    show ((x :: xs).isPrefixOf (c :: replaceAll x xs (eh :: et) s2) ||
        containsSeq (x :: xs) (replaceAll x xs (eh :: et) s2)) = false
    rw [ih, Bool.or_false]
    cases hval : (x :: xs).isPrefixOf (c :: replaceAll x xs (eh :: et) s2) with
    | false => rfl
    | true =>
      exfalso
      have h2 : ((x == c) && xs.isPrefixOf (replaceAll x xs (eh :: et) s2)) = true := hval
      have hxs2 := prefix_thru_replaceAll x xs eh et heh s2 xs
        (fun d hd => hxs d (List.mem_cons_of_mem x hd)) (bandElim h2).2
      exact hp (bandIntro (bandElim h2).1 hxs2)

/-- Preservation: replacing another key by an English block cannot create a
new occurrence of a key that has no ASCII letters and a strongly foreign
head. -/
lemma containsSeq_replaceAll_other (x : Char) (xs : List Char)
    (hx : engChar x = false) (hxs : ∀ c ∈ x :: xs, isEngLetter c = false)
    (kh : Char) (kt : List Char) (eh : Char) (et : List Char)
    (heh : isEngLetter eh = true) (hall : ∀ c ∈ eh :: et, engChar c = true)
    (s : List Char) :
    containsSeq (x :: xs) s = false →
      containsSeq (x :: xs) (replaceAll kh kt (eh :: et) s) = false := by
  induction s using replaceAll.induct kh kt (eh :: et) with
  | case1 =>
    intro h
    rw [replaceAll_nil]
    rfl
  | case2 c s2 hp ih =>
    intro h
    rw [replaceAll_cons, if_pos hp]
    have hR := ih (containsSeq_drop kt.length s2 (containsSeq_tail h))
    cases hval : containsSeq (x :: xs) ((eh :: et) ++
        replaceAll kh kt (eh :: et) (s2.drop kt.length)) with
    | false => rfl
    | true =>
      exfalso
      have := containsSeq_elim_engBlock x xs hx (eh :: et) _ hall hval
      rw [hR] at this
      cases this
  | case3 c s2 hp ih =>
    intro h
    rw [replaceAll_cons, if_neg hp]
    have hpair : ((x :: xs).isPrefixOf (c :: s2) || containsSeq (x :: xs) s2) = false := h
    have hR := ih (Bool.or_eq_false_iff.mp hpair).2
    show ((x :: xs).isPrefixOf (c :: replaceAll kh kt (eh :: et) s2) ||
        containsSeq (x :: xs) (replaceAll kh kt (eh :: et) s2)) = false
    rw [hR, Bool.or_false]
    cases hval : (x :: xs).isPrefixOf (c :: replaceAll kh kt (eh :: et) s2) with
    | false => rfl
    | true =>
      exfalso
      have h2 : ((x == c) && xs.isPrefixOf (replaceAll kh kt (eh :: et) s2)) = true := hval
      have hxs2 := prefix_thru_replaceAll kh kt eh et heh s2 xs
        (fun d hd => hxs d (List.mem_cons_of_mem x hd)) (bandElim h2).2
      have : ((x :: xs).isPrefixOf (c :: s2)) = true :=
        bandIntro (bandElim h2).1 hxs2
      rw [(Bool.or_eq_false_iff.mp hpair).1] at this
      cases this

/-- Replacing a key that does not occur is the identity. -/
lemma replaceAll_no_occurrence (kh : Char) (kt e : List Char) :
    ∀ s, containsSeq (kh :: kt) s = false → replaceAll kh kt e s = s := by
  intro s
  induction s with
  | nil => intro _; exact replaceAll_nil kh kt e
  | cons c s2 ih =>
    intro h
    have hpair : ((kh :: kt).isPrefixOf (c :: s2) || containsSeq (kh :: kt) s2) = false := h
    rw [replaceAll_cons,
      if_neg (by rw [(Bool.or_eq_false_iff.mp hpair).1]; exact Bool.false_ne_true),
      ih (Bool.or_eq_false_iff.mp hpair).2]

/-- One step of the `for (const [hebrew, english] of Object.entries(...))`
loop: `result.replace(new RegExp(hebrew, 'g'), english)`.  The table keys
are nonempty; the empty-key branch is unreachable. -/
def applyEntry (s : List Char) (p : String × String) : List Char :=
  match p.1.toList with
  | [] => s
  | kh :: kt => replaceAll kh kt p.2.toList s

/-- The `hebrewToEnglish` lookup table, in the source's insertion order,
which is the iteration order of `Object.entries` for string keys. -/
def hebrewToEnglish : List (String × String) :=
  [("הולנד", "Netherlands"), ("ישראל", "Israel"), ("ארצות הברית", "United States"),
   ("בריטניה", "United Kingdom"), ("גרמניה", "Germany"), ("צרפת", "France"),
   ("ספרד", "Spain"), ("איטליה", "Italy"), ("קנדה", "Canada"),
   ("אוסטרליה", "Australia"), ("יפן", "Japan"), ("סין", "China"),
   ("הודו", "India"), ("ברזיל", "Brazil"), ("רוסיה", "Russia"),
   ("מקסיקו", "Mexico"), ("פולין", "Poland"), ("טורקיה", "Turkey"),
   ("אוקראינה", "Ukraine"), ("שוויץ", "Switzerland"), ("אוסטריה", "Austria"),
   ("בלגיה", "Belgium"), ("שוודיה", "Sweden"), ("נורבגיה", "Norway"),
   ("דנמרק", "Denmark"), ("פינלנד", "Finland"), ("פורטוגל", "Portugal"),
   ("יוון", "Greece"), ("צ\x27כיה", "Czech Republic"), ("רומניה", "Romania"),
   ("הונגריה", "Hungary"), ("אירלנד", "Ireland"), ("ניו זילנד", "New Zealand"),
   ("סינגפור", "Singapore"), ("הונג קונג", "Hong Kong"),
   ("דרום קוריאה", "South Korea"), ("תאילנד", "Thailand"), ("מלזיה", "Malaysia"),
   ("אינדונזיה", "Indonesia"), ("פיליפינים", "Philippines"),
   ("וייטנאם", "Vietnam"), ("ארגנטינה", "Argentina"), ("קולומביה", "Colombia"),
   ("צ\x27ילה", "Chile"), ("פרו", "Peru"), ("מצרים", "Egypt"),
   ("דרום אפריקה", "South Africa"), ("איחוד האמירויות", "United Arab Emirates"),
   ("סעודיה", "Saudi Arabia"), ("בכל מקום", "Everywhere"),
   ("כל המקומות", "All locations"), ("בינו׳", "Jan"), ("בפבר׳", "Feb"),
   ("במרץ", "Mar"), ("באפר׳", "Apr"), ("במאי", "May"), ("ביוני", "Jun"),
   ("ביולי", "Jul"), ("באוג׳", "Aug"), ("בספט׳", "Sep"), ("באוק׳", "Oct"),
   ("בנוב׳", "Nov"), ("בדצמ׳", "Dec")]

/-- The scraper's `translateToEnglish`: the `if (!text) return text`
guard (the falsy string is the empty one) followed by the sequential
replacement loop. -/
def translateToEnglish (text : String) : String :=
  if text = "" then text
  else String.mk (hebrewToEnglish.foldl applyEntry text.toList)

/-- A well-formed table key: nonempty, free of ASCII letters, and its head
is neither a letter nor a space (the Hebrew keys start with Hebrew
letters). -/
def keyOkB (k : String) : Bool :=
  match k.toList with
  | [] => false
  | c :: cs => !engChar c && (c :: cs).all (fun d => !isEngLetter d)

/-- A well-formed replacement value: nonempty, made of ASCII letters and
spaces, and starting with a letter. -/
def repOkB (e : String) : Bool :=
  match e.toList with
  | [] => false
  | c :: cs => isEngLetter c && (c :: cs).all engChar

def tableOkB (tbl : List (String × String)) : Bool :=
  tbl.all (fun p => keyOkB p.1 && repOkB p.2)

lemma hebrewToEnglish_ok : tableOkB hebrewToEnglish = true := by decide

lemma applyEntry_clears (p : String × String) (hk : keyOkB p.1 = true)
    (he : repOkB p.2 = true) (s : List Char) :
    containsSeq p.1.toList (applyEntry s p) = false := by
  unfold applyEntry
  unfold keyOkB at hk
  unfold repOkB at he
  cases hkl : p.1.toList with
  | nil => rw [hkl] at hk; cases hk
  | cons x xs =>
    cases hel : p.2.toList with
    | nil => rw [hel] at he; cases he
    | cons eh et =>
      have hk2 : (!engChar x && (x :: xs).all (fun d => !isEngLetter d)) = true := by
        rw [hkl] at hk; exact hk
      have he2 : (isEngLetter eh && (eh :: et).all engChar) = true := by
        rw [hel] at he; exact he
      show containsSeq (x :: xs) (replaceAll x xs (eh :: et) s) = false
      exact containsSeq_replaceAll_self x xs eh et
        (Bool.not_eq_true' .. ▸ (bandElim hk2).1)
        (fun c hc => Bool.not_eq_true' .. ▸ List.all_eq_true.mp (bandElim hk2).2 c hc)
        (bandElim he2).1 (List.all_eq_true.mp (bandElim he2).2) s

lemma applyEntry_preserves (k : String) (hk : keyOkB k = true)
    (p : String × String) (he : repOkB p.2 = true) (s : List Char)
    (h : containsSeq k.toList s = false) :
    containsSeq k.toList (applyEntry s p) = false := by
  unfold applyEntry
  unfold keyOkB at hk
  unfold repOkB at he
  cases hpl : p.1.toList with
  | nil => exact h
  | cons kh kt =>
    cases hkl : k.toList with
    | nil => rw [hkl] at hk; cases hk
    | cons x xs =>
      rw [hkl] at hk h
      cases hel : p.2.toList with
      | nil => rw [hel] at he; cases he
      | cons eh et =>
        rw [hel] at he
        show containsSeq (x :: xs) (replaceAll kh kt (eh :: et) s) = false
        exact containsSeq_replaceAll_other x xs
          (Bool.not_eq_true' .. ▸ (bandElim hk).1)
          (fun c hc => Bool.not_eq_true' .. ▸ List.all_eq_true.mp (bandElim hk).2 c hc)
          kh kt eh et (bandElim he).1 (List.all_eq_true.mp (bandElim he).2) s h

lemma applyEntry_id (p : String × String) (s : List Char)
    (h : containsSeq p.1.toList s = false) : applyEntry s p = s := by
  unfold applyEntry
  cases hpl : p.1.toList with
  | nil => rfl
  | cons kh kt =>
    rw [hpl] at h
    exact replaceAll_no_occurrence kh kt p.2.toList s h

lemma foldl_applyEntry_preserves (k : String) (hk : keyOkB k = true) :
    ∀ (tbl : List (String × String)), (∀ p ∈ tbl, repOkB p.2 = true) →
      ∀ s, containsSeq k.toList s = false →
        containsSeq k.toList (tbl.foldl applyEntry s) = false := by
  intro tbl
  induction tbl with
  | nil => intro _ s h; exact h
  | cons q rest ih =>
    intro hall s h
    rw [List.foldl_cons]
    exact ih (fun p hp => hall p (List.mem_cons_of_mem q hp)) (applyEntry s q)
      (applyEntry_preserves k hk q (hall q (List.mem_cons_self q rest)) s h)

lemma foldl_applyEntry_clears :
    ∀ (tbl : List (String × String)), tableOkB tbl = true →
      ∀ p ∈ tbl, ∀ s, containsSeq p.1.toList (tbl.foldl applyEntry s) = false := by
  intro tbl
  induction tbl with
  | nil =>
    intro _ p hp
    cases hp
  | cons q rest ih =>
    intro htbl p hp s
    have hq : (keyOkB q.1 && repOkB q.2) = true :=
      List.all_eq_true.mp htbl q (List.mem_cons_self q rest)
    have hrest : tableOkB rest = true :=
      List.all_eq_true.mpr fun r hr => List.all_eq_true.mp htbl r (List.mem_cons_of_mem q hr)
    rw [List.foldl_cons]
    rcases List.mem_cons.mp hp with rfl | hmem
    · exact foldl_applyEntry_preserves p.1 (bandElim hq).1 rest
        (fun r hr => (bandElim (List.all_eq_true.mp hrest r hr)).2) (applyEntry s p)
        (applyEntry_clears p (bandElim hq).1 (bandElim hq).2 s)
    · exact ih hrest p hmem (applyEntry s q)

lemma foldl_applyEntry_id :
    ∀ (tbl : List (String × String)) (s : List Char),
      (∀ p ∈ tbl, containsSeq p.1.toList s = false) → tbl.foldl applyEntry s = s := by
  intro tbl
  induction tbl with
  | nil => intro s _; rfl
  | cons q rest ih =>
    intro s h
    rw [List.foldl_cons, applyEntry_id q s (h q (List.mem_cons_self q rest))]
    exact ih s (fun p hp => h p (List.mem_cons_of_mem q hp))

/-- Claim C10: the Hebrew-to-English substitution is idempotent.  After one
pass no table key occurs in the result (each step removes its own key, and
later replacements — nonempty English blocks starting and consisting of
letters and spaces — cannot create an occurrence of any key), so a second
pass changes nothing. -/
theorem translateToEnglish_idempotent (t : String) :
    translateToEnglish (translateToEnglish t) = translateToEnglish t := by
  unfold translateToEnglish
  by_cases ht : t = ""
  · simp [ht]
  · rw [if_neg ht]
    by_cases hy : String.mk (hebrewToEnglish.foldl applyEntry t.toList) = ""
    · rw [if_pos hy]
    · rw [if_neg hy]
      have hlist : (String.mk (hebrewToEnglish.foldl applyEntry t.toList)).toList =
          hebrewToEnglish.foldl applyEntry t.toList := rfl
      rw [hlist]
      rw [foldl_applyEntry_id hebrewToEnglish (hebrewToEnglish.foldl applyEntry t.toList)
        (fun p hp => foldl_applyEntry_clears hebrewToEnglish hebrewToEnglish_ok p hp t.toList)]

/-! ## Supplementary-detail merging (part_001, `scrapeAdTransparency`)

After the initial search-page extraction, the scraper optionally visits the
advertiser detail page and the first creative's detail page and merges the
fetched fields into the scan data.  Every write is guarded by a JS
truthiness check, so a `null` (or empty) supplementary value leaves the
previously known value in place. -/

/-- JS truthiness of a nullable string: `null`/`undefined`/`""` are falsy. -/
def truthyStr : Option String → Bool
  | none => false
  | some s => !(s = "")

/-- The advertiser object built on the search page
(`{id, name, legalName, verified, location}`). -/
structure Advertiser where
  id : Option String
  name : Option String
  legalName : Option String
  verified : Bool
  location : Option String

/-- The advertiser detail page extraction result
(`{legalName: null, location: null, verified: false}` defaults). -/
structure AdvertiserDetails where
  legalName : Option String
  location : Option String
  verified : Bool

/-- The merge block for advertiser details:
`if (advertiserDetails.legalName) data.advertiser.legalName = ...;`
`if (advertiserDetails.location) data.advertiser.location = translateToEnglish(...);`
`if (advertiserDetails.verified) data.advertiser.verified = true;`. -/
def mergeAdvertiserDetails (a : Advertiser) (d : AdvertiserDetails) : Advertiser :=
  let a1 := match d.legalName with
    | some s => if s = "" then a else { a with legalName := some s }
    | none => a
  let a2 := match d.location with
    | some l => if l = "" then a1 else { a1 with location := some (translateToEnglish l) }
    | none => a1
  if d.verified then { a2 with verified := true } else a2

/-- One ad creative as extracted from a `creative-preview` element
(dimensions and the raw index are irrelevant to the claims; the fields the
server reads are kept). -/
structure AdEntry where
  creativeId : Option String
  position : Nat
  totalInView : Option Nat
  url : Option String
  advertiserName : Option String
  verified : Bool
  format : String
  imageUrl : Option String
  videoUrl : Option String
  adText : String

/-- A publisher entry as read by `runScheduledScan` from
`result.data.publishers` (`pub.name`, `pub.id`, `pub.verified`,
`pub.location`, `pub.ads`, `pub.adFormats`, `pub.lastSeenDate`). -/
structure Publisher where
  name : Option String
  id : Option String
  verified : Bool
  location : Option String
  ads : List AdEntry
  adFormats : List String
  lastSeenDate : Option String

/-- The scan-data record assembled by the page evaluation (the screenshot
blob and the raw page text are dropped: no claim depends on them). -/
structure ScanData where
  totalAds : Nat
  totalAdsText : String
  ads : List AdEntry
  adFormats : List String
  advertiser : Option Advertiser
  publishers : List Publisher
  lastSeenDate : Option String
  shownInRegions : Option String
  hasResults : Bool

/-- The creative detail page extraction result
(`{lastSeenDate: null, format: null, shownIn: null}` defaults). -/
structure AdDetails where
  lastSeenDate : Option String
  format : Option String
  shownIn : Option String

/-- The merge block for creative details:
`if (adDetails.lastSeenDate) data.lastSeenDate = translateToEnglish(...);`
`if (adDetails.format && !data.adFormats.includes(...)) data.adFormats.push(...);`
`if (adDetails.shownIn) data.shownInRegions = translateToEnglish(...);`. -/
def mergeAdDetails (data : ScanData) (d : AdDetails) : ScanData :=
  let d1 := match d.lastSeenDate with
    | some s => if s = "" then data else { data with lastSeenDate := some (translateToEnglish s) }
    | none => data
  let d2 := match d.format with
    | some f =>
      if f = "" then d1
      else if d1.adFormats.contains f then d1
      else { d1 with adFormats := d1.adFormats ++ [f] }
    | none => d1
  match d.shownIn with
  | some s => if s = "" then d2 else { d2 with shownInRegions := some (translateToEnglish s) }
  | none => d2

/-- Claim C1: a null supplementary value never overwrites a previously
known value — each merged field changes only when the fetched value is
non-null (and in particular a `legalName: null` advertiser detail leaves an
already-set `legalName` untouched). -/
theorem merge_preserves_known_fields (a : Advertiser) (d : AdvertiserDetails)
    (data : ScanData) (ad : AdDetails) :
    (d.legalName = none → (mergeAdvertiserDetails a d).legalName = a.legalName) ∧
      (d.location = none → (mergeAdvertiserDetails a d).location = a.location) ∧
      (d.verified = false → (mergeAdvertiserDetails a d).verified = a.verified) ∧
      (ad.lastSeenDate = none → (mergeAdDetails data ad).lastSeenDate = data.lastSeenDate) ∧
      (ad.shownIn = none → (mergeAdDetails data ad).shownInRegions = data.shownInRegions) := by
  refine ⟨fun h1 => ?_, fun h2 => ?_, fun h3 => ?_, fun h4 => ?_, fun h5 => ?_⟩
  · unfold mergeAdvertiserDetails
    rw [h1]
    rcases d.location with _ | l <;> rcases d.verified <;>
      dsimp only <;> split_ifs <;> (first | rfl | simp_all)
  · unfold mergeAdvertiserDetails
    rw [h2]
    rcases d.legalName with _ | s <;> rcases d.verified <;>
      dsimp only <;> split_ifs <;> (first | rfl | simp_all)
  · unfold mergeAdvertiserDetails
    rw [h3]
    rcases d.legalName with _ | s <;> rcases d.location with _ | l <;>
      dsimp only <;> split_ifs <;> (first | rfl | simp_all)
  · unfold mergeAdDetails
    rw [h4]
    rcases ad.format with _ | f <;> rcases ad.shownIn with _ | s <;>
      dsimp only <;> split_ifs <;> (first | rfl | simp_all)
  · unfold mergeAdDetails
    rw [h5]
    rcases ad.lastSeenDate with _ | s <;> rcases ad.format with _ | f <;>
      dsimp only <;> split_ifs <;> (first | rfl | simp_all)

/-- Witness for claim C1: an advertiser with a known legal name merged with
an all-null supplementary fetch keeps every field. -/
theorem merge_preserves_known_fields_witness :
    (mergeAdvertiserDetails
        ⟨some "AR1", some "Acme", some "Acme Ltd", true, some "Israel"⟩
        ⟨none, none, false⟩).legalName = some "Acme Ltd" ∧
      (mergeAdDetails
          ⟨2000, "2K ads", [], ["Image"], none, [], some "Jan 2026", none, true⟩
          ⟨none, none, none⟩).lastSeenDate = some "Jan 2026" :=
  ⟨(merge_preserves_known_fields
      ⟨some "AR1", some "Acme", some "Acme Ltd", true, some "Israel"⟩ ⟨none, none, false⟩
      ⟨2000, "2K ads", [], ["Image"], none, [], some "Jan 2026", none, true⟩
      ⟨none, none, none⟩).1 rfl,
    (merge_preserves_known_fields
      ⟨some "AR1", some "Acme", some "Acme Ltd", true, some "Israel"⟩ ⟨none, none, false⟩
      ⟨2000, "2K ads", [], ["Image"], none, [], some "Jan 2026", none, true⟩
      ⟨none, none, none⟩).2.2.2.1 rfl⟩

/-! ## Per-creative format detection (part_001, `scrapeAdTransparency`)

For each `creative-preview` element the page evaluation queries a `video`
element and an ad-image element and sets `adFormat` accordingly. -/

/-- The per-creative DOM query results: `el.querySelector('video')` and
`el.querySelector('img[src*="googlesyndication"], img[src*="googleusercontent"]')`,
`none` when the query returns `null` (payload: the element's `src`). -/
structure CreativeEl where
  videoEl : Option String
  imgEl : Option String

/-- Models `let adFormat = 'Text'; if (hasVideo) adFormat = 'Video';
else if (hasImage) adFormat = 'Image';`. -/
def detectAdFormat (el : CreativeEl) : String :=
  let hasVideo := el.videoEl.isSome
  let hasImage := el.imgEl.isSome
  if hasVideo then "Video" else if hasImage then "Image" else "Text"

/-- Claim C7: a creative with a playable-media element is `Video` (even
when an image element is also present), else an image element gives
`Image`, else `Text`. -/
theorem detectAdFormat_precedence (el : CreativeEl) :
    (el.videoEl.isSome = true → detectAdFormat el = "Video") ∧
      (el.videoEl = none → el.imgEl.isSome = true → detectAdFormat el = "Image") ∧
      (el.videoEl = none → el.imgEl = none → detectAdFormat el = "Text") := by
  refine ⟨fun h1 => ?_, fun h2 h3 => ?_, fun h4 h5 => ?_⟩
  · unfold detectAdFormat
    rw [h1]
    rfl
  · unfold detectAdFormat
    rw [h2, h3]
    rfl
  · unfold detectAdFormat
    rw [h4, h5]
    rfl

/-- Witness for claim C7: a creative carrying both a video and an image
element classifies as `Video`. -/
theorem detectAdFormat_precedence_witness :
    detectAdFormat ⟨some "v.mp4", some "i.png"⟩ = "Video" :=
  (detectAdFormat_precedence ⟨some "v.mp4", some "i.png"⟩).1 rfl

/-! ## Batch scheduler (part_001, Express server)

The server holds a single `autoRunState` record.  `runScheduledScan`
returns immediately when `isRunning` is set or no domains are configured;
otherwise it walks the batches, scans each domain inside a `try/catch`
(one error row per failed domain), submits each batch to the sheet sink
immediately, counts failed submissions, and finally re-arms the timer.

The model abstracts the asynchronous effects into parameters: `scan` gives
each domain's scrape outcome, `send` gives the sink's reply for a batch.
The `scanDate` field (a formatted current timestamp) and the Drive
screenshot upload are omitted: the screenshot branch only computes the
`adImageUrl` cell, which stays `'-'` exactly as in the unauthorized-Drive
path. -/

/-- JS `x || dflt` for a nullable string `x`: `null`, `undefined` and `""`
fall back to the default. -/
def jsOr (o : Option String) (dflt : String) : String :=
  match o with
  | some s => if s = "" then dflt else s
  | none => dflt

/-- The `adsTransparencyUrl` cell built for every row. -/
def adsUrl (domain : String) : String :=
  "https://adstransparency.google.com/?region=anywhere&domain=" ++ domain

/-- Computes `rawAdText !== '-' ? rawAdText.replace(/מאומת/g, '').trim() : '-'`
with `rawAdText = firstAd?.adText || '-'`. -/
def cleanAdTextOf (firstAd : Option AdEntry) : String :=
  let rawAdText := jsOr (firstAd.map (fun a => a.adText)) "-"
  if rawAdText = "-" then "-"
  else String.mk (trimChars (replaceAll 'מ' "אומת".toList [] rawAdText.toList))

/-- One persisted result row (the `scanDate` timestamp cell is abstracted
away; every other cell written by `runScheduledScan` is present). -/
structure Row where
  domain : String
  publisherName : String
  publisherId : String
  creativeId : String
  publisherVerified : Bool
  publisherLocation : String
  totalAds : Nat
  adsInView : Nat
  adFormats : List String
  lastSeenDate : String
  adImageUrl : String
  adText : String
  adsTransparencyUrl : String
  status : String
  error : Option String

/-- The per-publisher success row (`publishers.length > 0` branch). -/
def rowOfPublisher (domain screenshotDriveUrl : String) (data : ScanData)
    (adsInView : Nat) (pub : Publisher) : Row :=
  { domain := domain
    publisherName := jsOr pub.name "-"
    publisherId := jsOr pub.id "-"
    creativeId := jsOr (pub.ads.head?.bind (fun a => a.creativeId)) "-"
    publisherVerified := pub.verified
    publisherLocation := jsOr pub.location "-"
    totalAds := data.totalAds
    adsInView := adsInView
    adFormats := pub.adFormats
    lastSeenDate := jsOr pub.lastSeenDate "-"
    adImageUrl := screenshotDriveUrl
    adText := cleanAdTextOf pub.ads.head?
    adsTransparencyUrl := adsUrl domain
    status := "success"
    error := none }

/-- The fallback success row when no publisher was resolved. -/
def fallbackRow (domain screenshotDriveUrl : String) (data : ScanData)
    (adsInView : Nat) : Row :=
  { domain := domain
    publisherName := jsOr (data.advertiser.bind (fun a => a.name)) "-"
    publisherId := jsOr (data.advertiser.bind (fun a => a.id)) "-"
    creativeId := jsOr (data.ads.head?.bind (fun a => a.creativeId)) "-"
    publisherVerified := match data.advertiser with
      | some a => a.verified
      | none => false
    publisherLocation := jsOr (data.advertiser.bind (fun a => a.location)) "-"
    totalAds := data.totalAds
    adsInView := adsInView
    adFormats := data.adFormats
    lastSeenDate := jsOr data.lastSeenDate "-"
    adImageUrl := screenshotDriveUrl
    adText := cleanAdTextOf data.ads.head?
    adsTransparencyUrl := adsUrl domain
    status := "success"
    error := none }

/-- The error row emitted for a failed domain (scrape resolved with
`success: false`, or an exception caught by the `try/catch`). -/
def errorRow (domain : String) (msg : String) : Row :=
  { domain := domain
    publisherName := "-"
    publisherId := "-"
    creativeId := "-"
    publisherVerified := false
    publisherLocation := "-"
    totalAds := 0
    adsInView := 0
    adFormats := []
    lastSeenDate := "-"
    adImageUrl := "-"
    adText := "-"
    adsTransparencyUrl := adsUrl domain
    status := "error"
    error := some msg }

/-- The outcome of `await scrapeAdTransparency(domain, ...)` for one
domain: resolved with data, resolved with `success: false`, or rejected
(an exception reaching the `catch`). -/
inductive ScrapeOutcome where
  | ok (data : ScanData)
  | fail (error : String)
  | thrown (msg : String)

/-- The rows the inner loop pushes for one domain.  The Drive screenshot
upload is abstracted: `screenshotDriveUrl` keeps its initial `'-'`, as in
the unauthorized path. -/
def rowsForDomain (scan : String → ScrapeOutcome) (domain : String) : List Row :=
  match scan domain with
  | ScrapeOutcome.ok data =>
    let screenshotDriveUrl := "-"
    let adsInView := data.ads.length
    if data.publishers.isEmpty then [fallbackRow domain screenshotDriveUrl data adsInView]
    else data.publishers.map (rowOfPublisher domain screenshotDriveUrl data adsInView)
  | ScrapeOutcome.fail e => [errorRow domain e]
  | ScrapeOutcome.thrown msg => [errorRow domain msg]

/-- The inner `for (const domain of batchDomains)` loop, accumulating
`batchResults`. -/
def processBatch (scan : String → ScrapeOutcome) (batchDomains : List String) : List Row :=
  batchDomains.foldl (fun acc d => acc ++ rowsForDomain scan d) []

/-- Accumulator of the outer batch loop: `allResults`, `savedTotal`,
`failedBatches`. -/
structure BatchAcc where
  allResults : List Row
  savedTotal : Nat
  failedBatches : Nat

/-- One iteration of the outer batch loop: scan the batch, then
`if (autoRunState.appsScriptUrl && batchResults.length > 0)` submit it,
adding `savedCount` on success and counting a failed batch otherwise. -/
def runBatchesStep (scan : String → ScrapeOutcome) (send : List Row → Bool × Nat)
    (appsScriptUrl : Option String) (acc : BatchAcc) (b : List String) : BatchAcc :=
  let batchResults := processBatch scan b
  let acc1 : BatchAcc :=
    { acc with allResults := acc.allResults ++ batchResults }
  if truthyStr appsScriptUrl && !batchResults.isEmpty then
    let r := send batchResults
    if r.1 then { acc1 with savedTotal := acc1.savedTotal + r.2 }
    else { acc1 with failedBatches := acc1.failedBatches + 1 }
  else acc1

def runBatches (scan : String → ScrapeOutcome) (send : List Row → Bool × Nat)
    (appsScriptUrl : Option String) (batches : List (List String)) : BatchAcc :=
  batches.foldl (runBatchesStep scan send appsScriptUrl) ⟨[], 0, 0⟩

/-- The process-wide `autoRunState` record.  Timestamps are abstract
naturals; `scheduledTask` records whether a `setTimeout` handle is
pending. -/
structure AutoRunState where
  enabled : Bool
  intervalMinutes : Nat
  isRunning : Bool
  lastRunTime : Option Nat
  nextRunTime : Option Nat
  lastResults : Option (List Row)
  scheduledTask : Bool
  appsScriptUrl : Option String
  domains : List String
  batchSize : Nat

/-- Models `updateNextRunTime()`: sets `nextRunTime` counted from completion
time when the scheduler is enabled with a positive interval. -/
def updateNextRunTime (s : AutoRunState) (now : Nat) : AutoRunState :=
  if s.enabled && s.intervalMinutes > 0 then
    { s with nextRunTime := some (now + s.intervalMinutes) }
  else { s with nextRunTime := none }

/-- Models `scheduleNextRun()`: returns unchanged when disabled, else replaces any
pending timer with a fresh one. -/
def scheduleNextRun (s : AutoRunState) : AutoRunState :=
  if !s.enabled then s
  else { s with scheduledTask := true }

/-- The observable outcome of one `runScheduledScan()` invocation. -/
structure RunOutcome where
  state : AutoRunState
  scannedRows : List Row
  savedTotal : Nat
  failedBatches : Nat

/-- Models `runScheduledScan()`: the `isRunning` mutual-exclusion guard, the
empty-domains guard, the batch loop, and the completion updates
(`isRunning` is set at entry and cleared at the end, so its net value is
`false`; `lastRunTime`/`lastResults` are recorded, then the timer is
re-armed). -/
def runScheduledScan (s : AutoRunState) (scan : String → ScrapeOutcome)
    (send : List Row → Bool × Nat) (now : Nat) : RunOutcome :=
  if s.isRunning then ⟨s, [], 0, 0⟩
  else if s.domains.isEmpty then ⟨s, [], 0, 0⟩
  else
    let batchSize := if s.batchSize = 0 then 5 else s.batchSize
    let acc := runBatches scan send s.appsScriptUrl (scheduleBatches s.domains batchSize)
    let s1 := { s with isRunning := false, lastRunTime := some now,
                       lastResults := some acc.allResults }
    ⟨scheduleNextRun (updateNextRunTime s1 now), acc.allResults, acc.savedTotal,
      acc.failedBatches⟩

/-- Models `stopAutoRun()`: clears any pending timer, disables the scheduler and
clears `nextRunTime`; it never touches `isRunning`. -/
def stopAutoRun (s : AutoRunState) : AutoRunState :=
  { s with scheduledTask := false, enabled := false, nextRunTime := none }

/-- The value returned by `startAutoRun()`. -/
structure StartResult where
  success : Bool
  error : Option String

/-- Models `startAutoRun()`: `stopAutoRun()` first, then the interval validation,
then `enabled = true` and an immediate `runScheduledScan()`. -/
def startAutoRun (s : AutoRunState) (scan : String → ScrapeOutcome)
    (send : List Row → Bool × Nat) (now : Nat) : RunOutcome × StartResult :=
  let s1 := stopAutoRun s
  if s1.intervalMinutes < 1 then
    (⟨s1, [], 0, 0⟩, ⟨false, some "Interval must be at least 1 minute"⟩)
  else
    let s2 := { s1 with enabled := true }
    (runScheduledScan s2 scan send now, ⟨true, none⟩)

/-- The `/auto-run/status` response. -/
structure AutoRunStatus where
  enabled : Bool
  intervalMinutes : Nat
  isRunning : Bool
  lastRunTime : Option Nat
  nextRunTime : Option Nat
  domainsCount : Nat

def autoRunStatus (s : AutoRunState) : AutoRunStatus :=
  ⟨s.enabled, s.intervalMinutes, s.isRunning, s.lastRunTime, s.nextRunTime,
    s.domains.length⟩

lemma processBatch_eq_flatMap (scan : String → ScrapeOutcome) (b : List String) :
    processBatch scan b = b.flatMap (rowsForDomain scan) := by
  have H : ∀ (l : List String) (acc : List Row),
      l.foldl (fun acc d => acc ++ rowsForDomain scan d) acc =
        acc ++ l.flatMap (rowsForDomain scan) := by
    intro l
    induction l with
    | nil => intro acc; simp
    | cons d t ih =>
      intro acc
      rw [List.foldl_cons, ih, List.flatMap_cons, List.append_assoc]
  simpa using H b []

lemma runBatchesStep_rows (scan : String → ScrapeOutcome) (send : List Row → Bool × Nat)
    (u : Option String) (acc : BatchAcc) (b : List String) :
    (runBatchesStep scan send u acc b).allResults = acc.allResults ++ processBatch scan b := by
  unfold runBatchesStep
  dsimp only
  split_ifs <;> rfl

/-- Submission failure indicator for one batch (`appsScriptUrl` must be
truthy and the batch non-empty for a submission to be attempted). -/
def batchSendFails (scan : String → ScrapeOutcome) (send : List Row → Bool × Nat)
    (u : Option String) (b : List String) : Bool :=
  truthyStr u && !(processBatch scan b).isEmpty && !(send (processBatch scan b)).1

lemma runBatchesStep_failed (scan : String → ScrapeOutcome) (send : List Row → Bool × Nat)
    (u : Option String) (acc : BatchAcc) (b : List String) :
    (runBatchesStep scan send u acc b).failedBatches =
      acc.failedBatches + (if batchSendFails scan send u b then 1 else 0) := by
  unfold runBatchesStep batchSendFails
  dsimp only
  split_ifs with h1 h2 h3 <;> simp_all

lemma runBatches_rows_go (scan : String → ScrapeOutcome) (send : List Row → Bool × Nat)
    (u : Option String) :
    ∀ (batches : List (List String)) (acc : BatchAcc),
      (batches.foldl (runBatchesStep scan send u) acc).allResults =
        acc.allResults ++ batches.flatMap (processBatch scan) := by
  intro batches
  induction batches with
  | nil => intro acc; simp
  | cons b t ih =>
    intro acc
    rw [List.foldl_cons, ih, runBatchesStep_rows, List.flatMap_cons, List.append_assoc]

lemma runBatches_failed_go (scan : String → ScrapeOutcome) (send : List Row → Bool × Nat)
    (u : Option String) :
    ∀ (batches : List (List String)) (acc : BatchAcc),
      (batches.foldl (runBatchesStep scan send u) acc).failedBatches =
        acc.failedBatches + (batches.filter (batchSendFails scan send u)).length := by
  intro batches
  induction batches with
  | nil => intro acc; simp
  | cons b t ih =>
    intro acc
    rw [List.foldl_cons, ih, runBatchesStep_failed, List.filter_cons]
    split_ifs <;> simp <;> omega

lemma flatten_flatMap_rows (f : String → List Row) :
    ∀ (L : List (List String)), L.flatten.flatMap f = L.flatMap (fun l => l.flatMap f) := by
  intro L
  induction L with
  | nil => rfl
  | cons x t ih => rw [List.flatten_cons, List.flatMap_append, ih, List.flatMap_cons]

/-- The effective batch size: `autoRunState.batchSize || 5`. -/
lemma effectiveBatchSize_pos (n : Nat) : 1 ≤ (if n = 0 then 5 else n) := by
  split_ifs with h <;> omega

lemma runScheduledScan_rows (s : AutoRunState) (scan : String → ScrapeOutcome)
    (send : List Row → Bool × Nat) (now : Nat) (h : s.isRunning = false) :
    (runScheduledScan s scan send now).scannedRows =
      s.domains.flatMap (rowsForDomain scan) := by
  unfold runScheduledScan
  rw [h]
  simp only [Bool.false_eq_true, if_false]
  by_cases hd : s.domains.isEmpty
  · rw [if_pos hd]
    rw [List.isEmpty_iff.mp hd]
    rfl
  · rw [if_neg hd]
    dsimp only
    unfold runBatches
    rw [runBatches_rows_go, List.nil_append]
    have hflat := flatten_scheduleBatches (if s.batchSize = 0 then 5 else s.batchSize)
      (effectiveBatchSize_pos s.batchSize) s.domains
    have hfun : processBatch scan = fun b => b.flatMap (rowsForDomain scan) :=
      funext (processBatch_eq_flatMap scan)
    rw [hfun, ← flatten_flatMap_rows, hflat]

lemma runScheduledScan_failedBatches (s : AutoRunState) (scan : String → ScrapeOutcome)
    (send : List Row → Bool × Nat) (now : Nat) (h : s.isRunning = false) :
    (runScheduledScan s scan send now).failedBatches =
      ((scheduleBatches s.domains (if s.batchSize = 0 then 5 else s.batchSize)).filter
        (batchSendFails scan send s.appsScriptUrl)).length := by
  unfold runScheduledScan
  rw [h]
  simp only [Bool.false_eq_true, if_false]
  by_cases hd : s.domains.isEmpty
  · rw [if_pos hd, List.isEmpty_iff.mp hd,
      scheduleBatches_nil _ (effectiveBatchSize_pos s.batchSize)]
    rfl
  · rw [if_neg hd]
    dsimp only
    unfold runBatches
    rw [runBatches_failed_go]
    simp

lemma runScheduledScan_early_return (s : AutoRunState) (scan : String → ScrapeOutcome)
    (send : List Row → Bool × Nat) (now : Nat) (h : s.isRunning = true) :
    runScheduledScan s scan send now = ⟨s, [], 0, 0⟩ := by
  unfold runScheduledScan
  rw [h]
  rfl

/-- Claim C8: calling `start()` while a run is in progress launches no
second run.  `runScheduledScan` returns immediately with the state
untouched and no scan work when `isRunning` is set, and a `startAutoRun`
issued in that situation produces no rows, leaves `isRunning` set (so the
status it reflects reports a running scan) and merely reports success. -/
theorem start_while_running_no_second_run (s : AutoRunState)
    (scan : String → ScrapeOutcome) (send : List Row → Bool × Nat) (now : Nat)
    (h : s.isRunning = true) (hi : 1 ≤ s.intervalMinutes) :
    runScheduledScan s scan send now = ⟨s, [], 0, 0⟩ ∧
      (startAutoRun s scan send now).1.scannedRows = [] ∧
      (startAutoRun s scan send now).1.state.isRunning = true ∧
      (autoRunStatus (startAutoRun s scan send now).1.state).isRunning = true ∧
      (startAutoRun s scan send now).2.success = true := by
  have hs2 : ({ stopAutoRun s with enabled := true } : AutoRunState).isRunning = true := h
  have hcond : ¬((stopAutoRun s).intervalMinutes < 1) := by
    have : (stopAutoRun s).intervalMinutes = s.intervalMinutes := rfl
    omega
  have hstart : startAutoRun s scan send now =
      (runScheduledScan { stopAutoRun s with enabled := true } scan send now,
        ⟨true, none⟩) := by
    unfold startAutoRun
    rw [if_neg hcond]
  refine ⟨runScheduledScan_early_return s scan send now h, ?_, ?_, ?_, ?_⟩
  · rw [hstart, runScheduledScan_early_return _ scan send now hs2]
  · rw [hstart, runScheduledScan_early_return _ scan send now hs2]
    exact hs2
  · rw [hstart, runScheduledScan_early_return _ scan send now hs2]
    exact hs2
  · rw [hstart]

/-- Witness for claim C8 at a concrete running state. -/
theorem start_while_running_no_second_run_witness :
    (startAutoRun ⟨true, 5, true, none, none, none, true, some "https://sheet", ["a.com"], 5⟩
        (fun _ => ScrapeOutcome.thrown "boom") (fun _ => (false, 0)) 0).1.scannedRows = [] ∧
      (startAutoRun ⟨true, 5, true, none, none, none, true, some "https://sheet", ["a.com"], 5⟩
        (fun _ => ScrapeOutcome.thrown "boom") (fun _ => (false, 0)) 0).1.state.isRunning =
        true :=
  ⟨(start_while_running_no_second_run _ _ _ 0 rfl (by decide)).2.1,
    (start_while_running_no_second_run _ _ _ 0 rfl (by decide)).2.2.1⟩

/-- Claim C9: per-domain and per-batch failure isolation.  A thrown scrape
error yields exactly one error-tagged row for that domain; the whole run
still produces the rows of every domain in order regardless of any
domain's outcome, the produced rows do not depend on the sink's replies
(so a failed submission halts nothing), and the failed submissions are
counted per batch. -/
theorem scheduledScan_failure_isolation (s : AutoRunState)
    (scan : String → ScrapeOutcome) (send send2 : List Row → Bool × Nat) (now : Nat)
    (h : s.isRunning = false) :
    (∀ d msg, scan d = ScrapeOutcome.thrown msg → rowsForDomain scan d = [errorRow d msg]) ∧
      (runScheduledScan s scan send now).scannedRows =
        s.domains.flatMap (rowsForDomain scan) ∧
      (runScheduledScan s scan send now).scannedRows =
        (runScheduledScan s scan send2 now).scannedRows ∧
      (runScheduledScan s scan send now).failedBatches =
        ((scheduleBatches s.domains (if s.batchSize = 0 then 5 else s.batchSize)).filter
          (batchSendFails scan send s.appsScriptUrl)).length := by
  refine ⟨fun d msg hd => ?_, runScheduledScan_rows s scan send now h,
    (runScheduledScan_rows s scan send now h).trans
      (runScheduledScan_rows s scan send2 now h).symm,
    runScheduledScan_failedBatches s scan send now h⟩
  unfold rowsForDomain
  rw [hd]

/-- Witness for claim C9: a scan that always throws still yields one error
row per domain and completes the whole two-domain run. -/
theorem scheduledScan_failure_isolation_witness :
    rowsForDomain (fun _ => ScrapeOutcome.thrown "boom") "a.com" =
        [errorRow "a.com" "boom"] ∧
      (runScheduledScan
          ⟨true, 5, false, none, none, none, true, some "https://sheet",
            ["a.com", "b.com"], 1⟩
          (fun _ => ScrapeOutcome.thrown "boom") (fun _ => (false, 0)) 0).scannedRows =
        (["a.com", "b.com"] : List String).flatMap
          (rowsForDomain (fun _ => ScrapeOutcome.thrown "boom")) :=
  ⟨(scheduledScan_failure_isolation
      ⟨true, 5, false, none, none, none, true, some "https://sheet", ["a.com", "b.com"], 1⟩
      (fun _ => ScrapeOutcome.thrown "boom") (fun _ => (false, 0)) (fun _ => (true, 0)) 0
      rfl).1 "a.com" "boom" rfl,
    (scheduledScan_failure_isolation
      ⟨true, 5, false, none, none, none, true, some "https://sheet", ["a.com", "b.com"], 1⟩
      (fun _ => ScrapeOutcome.thrown "boom") (fun _ => (false, 0)) (fun _ => (true, 0)) 0
      rfl).2.1⟩
